import Mathlib

/-!
Verification of the openprovider.py core (the Model facade of
`openprovider/models.py` and the Response unwrapper of
`openprovider/response.py`) against its natural-language specification.

The wrapped XML element (an lxml objectified tree in the implementation) is
embedded as a finite ordered tree of tagged nodes.  Attribute-style child
lookup on an element returns the first child with the requested tag and
signals a not-found condition when no such child exists; iterating an
element obtained by attribute lookup yields all of the parent's children
with that same tag, in document order.  Python exceptions are embedded as
an explicit error type carried in `Except`.
-/

namespace OpenProvider

/-! ### Case-conversion utilities

`openprovider/models.py` imports `camel_to_snake` and `snake_to_camel` from
`openprovider.util`, a module that is not among the source files.  The two
functions are therefore modelled from the spec: a pure string
transformation bridging snake_case and camelCase, total, and
reversible on the snake_case corpus in use. -/

/-- The lowercase ASCII letters paired with their uppercase forms. -/
def caseTable : List (Char × Char) :=
  [('a', 'A'), ('b', 'B'), ('c', 'C'), ('d', 'D'), ('e', 'E'), ('f', 'F'),
   ('g', 'G'), ('h', 'H'), ('i', 'I'), ('j', 'J'), ('k', 'K'), ('l', 'L'),
   ('m', 'M'), ('n', 'N'), ('o', 'O'), ('p', 'P'), ('q', 'Q'), ('r', 'R'),
   ('s', 'S'), ('t', 'T'), ('u', 'U'), ('v', 'V'), ('w', 'W'), ('x', 'X'),
   ('y', 'Y'), ('z', 'Z')]

/-- Uppercase an ASCII letter; other characters are unchanged. -/
def upChar (c : Char) : Char :=
  ((caseTable.find? (fun p => p.1 == c)).map Prod.snd).getD c

/-- Lowercase an ASCII letter; other characters are unchanged. -/
def loChar (c : Char) : Char :=
  ((caseTable.find? (fun p => p.2 == c)).map Prod.fst).getD c

/-- Is `c` an uppercase ASCII letter? -/
def isUp (c : Char) : Bool :=
  caseTable.any (fun p => p.2 == c)

/-- Is `c` a lowercase ASCII letter? -/
def isLo (c : Char) : Bool :=
  caseTable.any (fun p => p.1 == c)

/-- Split a character list on the underscore separator (like
Python's `str.split("_")`): always returns at least one (possibly empty)
part. -/
def splitU : List Char → List (List Char)
  | [] => [[]]
  | c :: rest =>
    if c = '_' then [] :: splitU rest
    else
      match splitU rest with
      | [] => [[c]]
      | p :: ps => (c :: p) :: ps

/-- Capitalize the first character of a word (like Python's `str.title()`
on a single lowercase word). -/
def capWord : List Char → List Char
  | [] => []
  | c :: cs => upChar c :: cs

/-- snake_case to camelCase on character lists: split on underscores, keep
the first part, capitalize the rest, concatenate. -/
def s2c (l : List Char) : List Char :=
  match splitU l with
  | [] => []
  | p :: ps => p ++ (ps.map capWord).flatten

/-- camelCase to snake_case on character lists: replace each uppercase
letter by an underscore followed by its lowercase form. -/
def c2s (l : List Char) : List Char :=
  l.foldr (fun c acc => if isUp c then '_' :: loChar c :: acc else c :: acc) []

/-- Modelled from the spec: `openprovider.util.snake_to_camel` (module
absent from the sources) converts a snake_case name to camelCase. -/
def snake_to_camel (s : String) : String := ⟨s2c s.data⟩

/-- Modelled from the spec: `openprovider.util.camel_to_snake` (module
absent from the sources) converts a camelCase name to snake_case. -/
def camel_to_snake (s : String) : String := ⟨c2s s.data⟩

/-- A well-formed snake_case name: every underscore-separated part is a
nonempty word of lowercase ASCII letters. -/
def snakeOK (s : String) : Bool :=
  (splitU s.data).all (fun p => !p.isEmpty && p.all isLo)

/-! ### Round-trip lemmas for the case conversions -/

theorem mem_caseTable_fst_of_isLo {c : Char} (h : isLo c = true) :
    c ∈ caseTable.map Prod.fst := by
  have : ∃ p ∈ caseTable, p.1 == c := by
    simpa [isLo, List.any_eq_true] using h
  obtain ⟨p, hp, hpc⟩ := this
  exact List.mem_map.mpr ⟨p, hp, by simpa using hpc⟩

theorem isLo_spec {c : Char} (h : isLo c = true) :
    isUp (upChar c) = true ∧ loChar (upChar c) = c ∧ isUp c = false := by
  have hm := mem_caseTable_fst_of_isLo h
  fin_cases hm <;> decide

theorem c2s_append (a b : List Char) : c2s (a ++ b) = c2s a ++ c2s b := by
  induction a with
  | nil => rfl
  | cons c cs ih =>
    simp only [c2s] at *
    rw [List.cons_append, List.foldr_cons, List.foldr_cons, ih]
    by_cases h : isUp c = true
    · simp [h]
    · simp [h]

theorem c2s_of_lower {p : List Char} (h : ∀ c ∈ p, isLo c = true) :
    c2s p = p := by
  induction p with
  | nil => rfl
  | cons c cs ih =>
    have hc := (isLo_spec (h c (List.mem_cons_self c cs))).2.2
    have hcs := ih (fun d hd => h d (List.mem_cons_of_mem c hd))
    simp only [c2s, List.foldr_cons] at hcs ⊢
    rw [hc, hcs]
    simp

theorem c2s_capWord {p : List Char} (hne : p ≠ [])
    (h : ∀ c ∈ p, isLo c = true) : c2s (capWord p) = '_' :: p := by
  match p, hne with
  | c :: cs, _ =>
    have hc := isLo_spec (h c (List.mem_cons_self c cs))
    have hcs : c2s cs = cs := c2s_of_lower (fun d hd => h d (List.mem_cons_of_mem c hd))
    simp only [capWord, c2s, List.foldr_cons] at hcs ⊢
    rw [hc.1, hcs, hc.2.1]
    simp

/-- Join parts with underscore separators: left inverse of `splitU`. -/
def joinU : List (List Char) → List Char
  | [] => []
  | [p] => p
  | p :: ps => p ++ '_' :: joinU ps

theorem splitU_ne_nil (l : List Char) : splitU l ≠ [] := by
  cases l with
  | nil => simp [splitU]
  | cons c rest =>
    simp only [splitU]
    by_cases h : c = '_'
    · simp [h]
    · simp only [if_neg h]
      cases splitU rest <;> simp

theorem joinU_splitU (l : List Char) : joinU (splitU l) = l := by
  induction l with
  | nil => rfl
  | cons c rest ih =>
    simp only [splitU]
    by_cases h : c = '_'
    · subst h
      simp only [if_pos rfl]
      have hne := splitU_ne_nil rest
      match hsp : splitU rest with
      | [] => exact absurd hsp hne
      | p :: ps =>
        rw [hsp] at ih
        simp [joinU, ih]
    · simp only [if_neg h]
      have hne := splitU_ne_nil rest
      match hsp : splitU rest with
      | [] => exact absurd hsp hne
      | p :: ps =>
        rw [hsp] at ih
        cases ps with
        | nil => simpa [joinU] using congrArg (c :: ·) ih
        | cons q qs =>
          simp only [joinU] at ih ⊢
          rw [List.cons_append, ih]

theorem joinU_cons (p : List Char) (ps : List (List Char)) :
    joinU (p :: ps) = p ++ ps.flatMap (fun q => '_' :: q) := by
  induction ps generalizing p with
  | nil => simp [joinU]
  | cons q qs ih =>
    simp only [joinU, List.flatMap_cons]
    rw [ih q]
    simp

theorem c2s_flatten_caps {ps : List (List Char)}
    (h : ∀ p ∈ ps, p ≠ [] ∧ ∀ c ∈ p, isLo c = true) :
    c2s ((ps.map capWord).flatten) = ps.flatMap (fun q => '_' :: q) := by
  induction ps with
  | nil => rfl
  | cons q qs ih =>
    simp only [List.map_cons, List.flatten_cons, List.flatMap_cons]
    rw [c2s_append]
    have hq := h q (List.mem_cons_self q qs)
    rw [c2s_capWord hq.1 hq.2, ih (fun p hp => h p (List.mem_cons_of_mem q hp))]

theorem c2s_s2c_chars {l : List Char}
    (h : ∀ p ∈ splitU l, p ≠ [] ∧ ∀ c ∈ p, isLo c = true) :
    c2s (s2c l) = l := by
  have hne := splitU_ne_nil l
  match hsp : splitU l with
  | [] => exact absurd hsp hne
  | p :: ps =>
    have hall : ∀ q ∈ p :: ps, q ≠ [] ∧ ∀ c ∈ q, isLo c = true := by
      rw [← hsp]; exact h
    simp only [s2c, hsp]
    rw [c2s_append, c2s_of_lower (hall p (List.mem_cons_self p ps)).2,
        c2s_flatten_caps (fun q hq => hall q (List.mem_cons_of_mem p hq)),
        ← joinU_cons, ← hsp, joinU_splitU]

/-- For a well-formed snake_case name, converting to camelCase and back is
the identity. -/
theorem camel_snake_roundtrip {s : String} (h : snakeOK s = true) :
    camel_to_snake (snake_to_camel s) = s := by
  have h' : ∀ p ∈ splitU s.data, p ≠ [] ∧ ∀ c ∈ p, isLo c = true := by
    intro p hp
    have := (List.all_eq_true.mp h) p hp
    constructor
    · simpa using (Bool.and_elim_left this)
    · intro c hc
      exact (List.all_eq_true.mp (Bool.and_elim_right this)) c hc
  simp only [camel_to_snake, snake_to_camel]
  exact congrArg String.mk (c2s_s2c_chars h')

/-- `snake_to_camel` is injective on well-formed snake_case names. -/
theorem snake_to_camel_injOn {a b : String} (ha : snakeOK a = true)
    (hb : snakeOK b = true) (h : snake_to_camel a = snake_to_camel b) :
    a = b := by
  have := congrArg camel_to_snake h
  rwa [camel_snake_roundtrip ha, camel_snake_roundtrip hb] at this

/-- Membership test for the underscore character, mirroring Python's
`"_" in attr` test in `Model.__getattr__`. -/
def hasUnderscore (s : String) : Bool :=
  s.data.any (fun c => c == '_')

theorem not_underscore_mem_splitU {l : List Char} :
    ∀ p ∈ splitU l, '_' ∉ p := by
  induction l with
  | nil =>
    intro p hp
    simp only [splitU, List.mem_singleton] at hp
    simp [hp]
  | cons c rest ih =>
    intro p hp
    simp only [splitU] at hp
    by_cases h : c = '_'
    · rw [if_pos h] at hp
      rcases List.mem_cons.mp hp with h1 | h1
      · simp [h1]
      · exact ih p h1
    · rw [if_neg h] at hp
      have hne := splitU_ne_nil rest
      match hsp : splitU rest with
      | [] => exact absurd hsp hne
      | q :: qs =>
        rw [hsp] at hp
        rcases List.mem_cons.mp hp with h1 | h1
        · subst h1
          intro hm
          rcases List.mem_cons.mp hm with h2 | h2
          · exact h h2.symm
          · exact ih q (by rw [hsp]; exact List.mem_cons_self q qs) h2
        · exact ih p (by rw [hsp]; exact List.mem_cons_of_mem q h1)

theorem upChar_ne_underscore {c : Char} (h : c ≠ '_') : upChar c ≠ '_' := by
  unfold upChar
  cases hf : caseTable.find? (fun p => p.1 == c) with
  | none => simpa using h
  | some p =>
    have hp := List.mem_of_find?_eq_some hf
    show p.2 ≠ '_'
    fin_cases hp <;> decide

theorem s2c_no_underscore (l : List Char) : '_' ∉ s2c l := by
  have hne := splitU_ne_nil l
  match hsp : splitU l with
  | [] => exact absurd hsp hne
  | p :: ps =>
    simp only [s2c, hsp]
    intro hm
    rcases List.mem_append.mp hm with h1 | h1
    · exact not_underscore_mem_splitU p (by rw [hsp]; exact List.mem_cons_self p ps) h1
    · obtain ⟨w, hw, hcw⟩ := List.mem_flatten.mp h1
      obtain ⟨q, hq, hcap⟩ := List.mem_map.mp hw
      have hqmem : q ∈ splitU l := by rw [hsp]; exact List.mem_cons_of_mem p hq
      have hqno := not_underscore_mem_splitU q hqmem
      subst hcap
      match q, hcw with
      | d :: ds, hcw =>
        rcases List.mem_cons.mp hcw with h2 | h2
        · exact upChar_ne_underscore
            (fun hd => hqno (hd ▸ List.mem_cons_self d ds)) h2.symm
        · exact hqno (List.mem_cons_of_mem d h2)

theorem hasUnderscore_snake_to_camel (s : String) :
    hasUnderscore (snake_to_camel s) = false := by
  simp only [hasUnderscore, snake_to_camel, List.any_eq_false]
  intro c hc
  simp only [beq_iff_eq]
  intro h
  exact s2c_no_underscore s.data (h ▸ hc)

theorem splitU_of_no_underscore {l : List Char} (h : '_' ∉ l) :
    splitU l = [l] := by
  induction l with
  | nil => rfl
  | cons c rest ih =>
    simp only [splitU]
    have hc : ¬(c = '_') := fun hc => h (hc ▸ List.mem_cons_self c rest)
    rw [if_neg hc, ih (fun hm => h (List.mem_cons_of_mem c hm))]

theorem snake_to_camel_of_no_underscore {s : String}
    (h : hasUnderscore s = false) : snake_to_camel s = s := by
  have hmem : '_' ∉ s.data := by
    intro hm
    have := (List.any_eq_false.mp h) '_' hm
    simp at this
  simp only [snake_to_camel, s2c, splitU_of_no_underscore hmem]
  simp

/-! ### The wrapped XML element -/

/-- An objectified XML element: a tag and an ordered list of children.
This is the embedding of the lxml objectified trees that
`openprovider/models.py` and `openprovider/response.py` wrap. -/
inductive Elem where
  | node (tag : String) (children : List Elem)

/-- The element's tag. -/
def Elem.tag : Elem → String
  | .node t _ => t

/-- The element's children, in document order. -/
def Elem.children : Elem → List Elem
  | .node _ cs => cs

/-- Attribute-style child lookup on an objectified element: the first
child carrying the requested tag, if any. -/
def Elem.find (e : Elem) (k : String) : Option Elem :=
  e.children.find? (fun c => c.tag == k)

/-- Python exceptions relevant to this core.  `attrError` covers the
AttributeError family (both the lxml "no such child" condition and the
Model facade's own error, which additionally carries the diagnostic list
of known alternative names); `typeError` covers everything that is not an
AttributeError. -/
inductive PyErr where
  | attrError (name : String) (tried : List String)
  | typeError (msg : String)
deriving DecidableEq

/-- Is the exception in the AttributeError family? -/
def PyErr.isAttrError : PyErr → Bool
  | .attrError _ _ => true
  | .typeError _ => false

/-- Attribute-style child access on an element, raising the lxml
not-found condition (an AttributeError) when no child carries the tag. -/
def attrE (e : Elem) (k : String) : Except PyErr Elem :=
  match e.find k with
  | some c => .ok c
  | none => .error (.attrError k [])

/-! ### The Model facade (`openprovider/models.py`) -/

/-- `Model.__init__(self, obj=None, **kwargs)`: stores the wrapped element
in `self._obj` and the override attributes in `self._attrs`, keyed by the
camelCase form of each keyword name.  Override values are opaque Python
objects, embedded as a type parameter `V`. -/
structure Model (V : Type) where
  _obj : Option Elem
  _attrs : List (String × V)

/-- Python dict lookup for a dict built from an association list by
successive insertion (a later binding for the same key overrides an
earlier one). -/
def pydict_get {V : Type} (l : List (String × V)) (k : String) : Option V :=
  l.foldl (fun acc p => if p.1 = k then some p.2 else acc) none

/-- `Model(obj, **kwargs)`: the `_attrs` dict is
`dict((snake_to_camel(key), value) for (key, value) in kwargs.items())`. -/
def Model.init {V : Type} (obj : Option Elem) (kwargs : List (String × V)) :
    Model V :=
  { _obj := obj, _attrs := kwargs.map (fun p => (snake_to_camel p.1, p.2)) }

/-- What a successful `Model.__getattr__` returns: an override value, a
child of the wrapped element, or (via the `attr in self.__dict__` guard)
one of the two instance fields themselves. -/
inductive Got (V : Type) where
  | ov (v : V)
  | child (e : Elem)
  | objField (o : Option Elem)
  | attrsField (l : List (String × V))

/-- The keys of `self.__dict__` for a `Model` instance: exactly the two
instance fields assigned in `Model.__init__`. -/
def instanceFields : List String := ["_obj", "_attrs"]

/-- Python's `name.startswith('_')`: the private-name marker used by
`Model.__dir__`. -/
def isPrivateName (s : String) : Bool :=
  s.data.head? == some '_'

/-- `Model.__dir__`: the set of `self.__dict__` keys, the override keys
converted to snake_case, and (when a wrapped element is present) the tags
of its children converted to snake_case — minus every name starting with
an underscore. -/
def Model.dirList {V : Type} (m : Model V) : List String :=
  ((instanceFields ++ m._attrs.map (fun p => camel_to_snake p.1) ++
      (match m._obj with
       | some o => o.children.map (fun c => camel_to_snake c.tag)
       | none => [])).dedup).filter
    (fun s => ! isPrivateName s)

/-- The name-normalization step at the top of `Model.__getattr__`: a name
containing an underscore is converted from snake_case to camelCase. -/
def normName (a : String) : String :=
  if hasUnderscore a then snake_to_camel a else a

/-- `Model.__getattr__(self, attr)` (invoked by Python when normal
attribute lookup fails): converts a snake_case request to camelCase, checks
`self.__dict__`, then the override dict `self._attrs`, then the wrapped
element `self._obj`.

When a wrapped element is present but has no matching child,
`self._obj[attr]` raises lxml's `AttributeError("no such child: ...")`
(string-key `__getitem__` on an objectified element behaves like
`getattr`), which the source's `except KeyError` cannot catch, so that
bare error — naming the camelCase attribute, with no alternatives list —
propagates out of `__getattr__`; it is the same not-found condition
`attrE` models.  Only when `self._obj is None` does control fall through
to the facade's own
`AttributeError("Model has no attribute '%s' (tried %r)"
% (camel_to_snake(attr), dir(self)))`. -/
def Model.getattrMagic {V : Type} (m : Model V) (attr0 : String) :
    Except PyErr (Got V) :=
  let attr := normName attr0
  if attr = "_obj" then .ok (.objField m._obj)
  else if attr = "_attrs" then .ok (.attrsField m._attrs)
  else
    match pydict_get m._attrs attr with
    | some v => .ok (.ov v)
    | none =>
      match m._obj with
      | some o =>
        match o.find attr with
        | some c => .ok (.child c)
        | none => .error (.attrError attr [])
      | none => .error (.attrError (camel_to_snake attr) m.dirList)

/-- Python's `hasattr` on a Model for a name that is not a declared class
attribute: true when `Model.__getattr__` does not raise. -/
def Model.hasattrM {V : Type} (m : Model V) (k : String) : Bool :=
  (m.getattrMagic k).toBool

/-- `klass(mod)` for a Model subtype whose `__init__` is inherited from
`Model`: wraps the element with no overrides. -/
def wrapModel {V : Type} (e : Elem) : Model V :=
  { _obj := some e, _attrs := [] }

/-- `submodel(klass, key)`: the property getter
`lambda self: klass(getattr(self._obj, key))`.  `getattr` on `None` or on
an element without a matching child raises an AttributeError. -/
def submodel_get {V : Type} (key : String) (m : Model V) :
    Except PyErr (Model V) :=
  match m._obj with
  | some o => (attrE o key).map (fun c => wrapModel c)
  | none => .error (.attrError key [])

/-! ### The Response unwrapper (`openprovider/response.py`) -/

/-- The value of `Response.array`: either the resolved array element, or
the Python empty list `[]` installed when the array section is absent. -/
inductive ArrayField where
  | elem (e : Elem)
  | emptyList

/-- A constructed `Response`: the full tree plus the unwrapped envelope
fields. -/
structure Response where
  tree : Elem
  reply : Elem
  code : Elem
  desc : Elem
  data : Elem
  array : ArrayField

/-- `Response.__init__`: unwraps `self.tree.reply`, `self.tree.reply.code`,
`self.tree.reply.desc` and `self.tree.reply.data` with plain attribute
access (a missing field raises and propagates), then tries
`self.tree.reply.array[0]`, installing the empty list on AttributeError.
The source re-reads `self.tree.reply` on every line; attribute access is
pure, so the embedding binds it once. -/
def Response.init (tree : Elem) : Except PyErr Response := do
  let reply ← attrE tree "reply"
  let code ← attrE reply "code"
  let desc ← attrE reply "desc"
  let data ← attrE reply "data"
  let array := match reply.find "array" with
    | some a => ArrayField.elem a
    | none => ArrayField.emptyList
  pure ⟨tree, reply, code, desc, data, array⟩

/-- Does the tree carry the envelope fields `reply.code`, `reply.desc`
and `reply.data` that `Response.__init__` unwraps unguarded? -/
def envelopeOK (tree : Elem) : Bool :=
  match tree.find "reply" with
  | some reply =>
    (reply.find "code").isSome && (reply.find "desc").isSome &&
      (reply.find "data").isSome
  | none => false

/-- The path walk of `Response.as_models`:
`self.tree.reply.data.results.array[0].item`.  `array[0]` denotes the
first same-tag sibling of the resolved `array` child, i.e. that child
itself; the final `.item` access raises when no item child exists, and
iterating its result yields every `item` child of the array element in
document order. -/
def itemsWalk (tree : Elem) : Except PyErr (List Elem) := do
  let reply ← attrE tree "reply"
  let data ← attrE reply "data"
  let results ← attrE data "results"
  let arr ← attrE results "array"
  let _ ← attrE arr "item"
  pure (arr.children.filter (fun c => c.tag == "item"))

/-- The body of the `try` block in `Response.as_models`: walk the nested
path, then convert each item in order, appending to `out`.  The conversion
`klass(mod)` is kept as a parameter `f`, which may itself raise. -/
def as_modelsBody {M : Type} (tree : Elem) (f : Elem → Except PyErr M) :
    Except PyErr (List M) := do
  let items ← itemsWalk tree
  items.foldlM (fun out it => do
    let m ← f it
    pure (out ++ [m])) []

/-- `Response.as_models` with the conversion kept as a parameter: the whole
body runs under `try ... except AttributeError: return []`, so an
AttributeError raised anywhere inside yields the empty list and discards
any partially built output, while any other exception propagates. -/
def as_modelsF {M : Type} (tree : Elem) (f : Elem → Except PyErr M) :
    Except PyErr (List M) :=
  match as_modelsBody tree f with
  | .ok l => .ok l
  | .error e => if e.isAttrError then .ok [] else .error e

/-- `Response.as_models(self, klass)` for a Model subtype `klass` whose
`__init__` is inherited from `Model` (true of every subtype in
`openprovider/models.py`): each item is wrapped with no overrides. -/
def Response.as_models {V : Type} (r : Response) :
    Except PyErr (List (Model V)) :=
  as_modelsF r.tree (fun e => .ok (wrapModel e))

/-- `Response.as_model(self, klass)`: wraps the data payload directly. -/
def Response.as_model {V : Type} (r : Response) : Model V :=
  wrapModel r.data

/-! ### `Name.__str__` (`openprovider/models.py`) -/

/-- A Model attribute lookup whose result is fed to `" ".join(...)`: an
override value is used as the string; a non-string result is a TypeError
at the join; a failed lookup propagates its AttributeError. -/
def getStr (m : Model String) (k : String) : Except PyErr String :=
  match m.getattrMagic k with
  | .ok (.ov s) => .ok s
  | .ok _ => .error (.typeError "sequence item: expected string")
  | .error e => .error e

/-- `Name.__str__` as written in the source: when a prefix attribute is
present it joins `self.first_name`, `self.prefix` and `self.last_name`
with spaces; otherwise it joins `self.firs_name` (sic) and
`self.last_name`. -/
def Name.str (m : Model String) : Except PyErr String :=
  if m.hasattrM "prefix" then do
    let f ← getStr m "first_name"
    let p ← getStr m "prefix"
    let l ← getStr m "last_name"
    pure (f ++ " " ++ p ++ " " ++ l)
  else do
    let f ← getStr m "firs_name"
    let l ← getStr m "last_name"
    pure (f ++ " " ++ l)

/-- External replacement of the children carrying a given tag inside a
wrapped element, as an lxml tree mutation would perform it. -/
def Elem.replaceChild (e : Elem) (key : String) (c' : Elem) : Elem :=
  .node e.tag (e.children.map (fun c => if c.tag == key then c' else c))

/-! ### Resolution lemmas for `Model.__getattr__` -/

theorem hasUnderscore_normName (a : String) :
    hasUnderscore (normName a) = false := by
  unfold normName
  by_cases h : hasUnderscore a
  · rw [if_pos h]
    exact hasUnderscore_snake_to_camel a
  · rw [if_neg h]
    exact Bool.eq_false_iff.mpr h

theorem normName_ne_of_underscore (a : String) {s : String}
    (hs : hasUnderscore s = true) : normName a ≠ s := by
  intro h
  have hn := hasUnderscore_normName a
  rw [h, hs] at hn
  exact Bool.noConfusion hn

theorem normName_eq_snake_to_camel (a : String) :
    normName a = snake_to_camel a := by
  unfold normName
  by_cases h : hasUnderscore a
  · rw [if_pos h]
  · rw [if_neg h, snake_to_camel_of_no_underscore (Bool.eq_false_iff.mpr h)]

/-- `Model.__getattr__` with the two (provably dead) `self.__dict__`
guards resolved: the normalized name never contains an underscore, while
both instance-field names do. -/
theorem getattrMagic_resolve {V : Type} (m : Model V) (a : String) :
    m.getattrMagic a =
      (match pydict_get m._attrs (normName a) with
       | some v => .ok (.ov v)
       | none =>
         match m._obj with
         | some o =>
           match o.find (normName a) with
           | some c => .ok (.child c)
           | none => .error (.attrError (normName a) [])
         | none => .error (.attrError (camel_to_snake (normName a)) m.dirList)) := by
  unfold Model.getattrMagic
  have h1 : normName a ≠ "_obj" := normName_ne_of_underscore a (by decide)
  have h2 : normName a ≠ "_attrs" := normName_ne_of_underscore a (by decide)
  simp only [if_neg h1, if_neg h2]

/-! ### Python dict lookup for the `_attrs` dict -/

theorem pydict_foldl_no_match {V : Type} {l : List (String × V)} {k : String}
    (h : ∀ p ∈ l, p.1 ≠ k) (acc : Option V) :
    l.foldl (fun acc p => if p.1 = k then some p.2 else acc) acc = acc := by
  induction l generalizing acc with
  | nil => rfl
  | cons p rest ih =>
    simp only [List.foldl_cons]
    rw [if_neg (h p (List.mem_cons_self p rest))]
    exact ih (fun q hq => h q (List.mem_cons_of_mem p hq)) acc

theorem pydict_foldl_of_mem {V : Type} {l : List (String × V)} {k : String}
    {v : V} (hnd : (l.map Prod.fst).Nodup) (hmem : (k, v) ∈ l)
    (acc : Option V) :
    l.foldl (fun acc p => if p.1 = k then some p.2 else acc) acc = some v := by
  induction l generalizing acc with
  | nil => exact absurd hmem (List.not_mem_nil _)
  | cons p rest ih =>
    rw [List.map_cons] at hnd
    have hhead := (List.nodup_cons.mp hnd).1
    have htail := (List.nodup_cons.mp hnd).2
    simp only [List.foldl_cons]
    rcases List.mem_cons.mp hmem with h1 | h1
    · subst h1
      rw [if_pos rfl]
      have hnk : ∀ q ∈ rest, q.1 ≠ k := by
        intro q hq he
        exact hhead (he ▸ List.mem_map.mpr ⟨q, hq, rfl⟩)
      exact pydict_foldl_no_match hnk (some v)
    · by_cases hp : p.1 = k
      · exact absurd (hp ▸ List.mem_map.mpr ⟨(k, v), h1, rfl⟩) hhead
      · rw [if_neg hp]
        exact ih htail h1 acc

theorem pydict_get_of_nodup {V : Type} {l : List (String × V)} {k : String}
    {v : V} (hnd : (l.map Prod.fst).Nodup) (hmem : (k, v) ∈ l) :
    pydict_get l k = some v :=
  pydict_foldl_of_mem hnd hmem none

theorem normName_camel (a : String) :
    normName (snake_to_camel a) = snake_to_camel a := by
  unfold normName
  rw [hasUnderscore_snake_to_camel]
  simp

theorem mem_dirList_iff {V : Type} (m : Model V) (x : String) :
    x ∈ m.dirList ↔
      ((x ∈ instanceFields ∨ (∃ p ∈ m._attrs, camel_to_snake p.1 = x) ∨
          (∃ o, m._obj = some o ∧ ∃ c ∈ o.children, camel_to_snake c.tag = x)) ∧
        isPrivateName x = false) := by
  unfold Model.dirList
  cases hobj : m._obj with
  | none =>
    simp [List.mem_filter, List.mem_dedup, List.mem_append, List.mem_map]
  | some o =>
    simp [List.mem_filter, List.mem_dedup, List.mem_append, List.mem_map]

/-- C8: for every Model, the attribute-surface enumeration (`__dir__`) is
exactly the union of the instance fields, the override keys converted to
snake_case, and the wrapped element's children's tags converted to
snake_case, with every name starting with the private underscore marker
removed; in particular no enumerated name starts with an underscore, even
though the declared instance fields `_obj` and `_attrs` do. -/
theorem dir_is_surface_union_sans_private {V : Type} (m : Model V)
    (x : String) :
    (x ∈ m.dirList ↔
        ((x ∈ instanceFields ∨ (∃ p ∈ m._attrs, camel_to_snake p.1 = x) ∨
            (∃ o, m._obj = some o ∧
              ∃ c ∈ o.children, camel_to_snake c.tag = x)) ∧
          isPrivateName x = false)) ∧
      m.dirList.all (fun y => ! isPrivateName y) = true := by
  refine ⟨mem_dirList_iff m x, ?_⟩
  rw [List.all_eq_true]
  intro y hy
  have := ((mem_dirList_iff m y).mp hy).2
  simp [this]

/-- C2: when a Model has both an override value and a same-named child of
the wrapped element, `__getattr__` returns the override value (override
precedence); the wrapped element is not consulted. -/
theorem override_beats_wrapped_child {V : Type} (m : Model V) (k : String)
    (v : V) (o c : Elem) (hobj : m._obj = some o)
    (hch : o.find (normName k) = some c)
    (hov : pydict_get m._attrs (normName k) = some v) :
    m.getattrMagic k = .ok (.ov v) := by
  rw [getattrMagic_resolve, hov]

/-- C1: for a Model constructed with snake_case override keywords,
`__getattr__` with the snake_case spelling and with the camelCase spelling
of the same key both return the stored override value. -/
theorem override_lookup_both_spellings {V : Type} (obj : Option Elem)
    (kwargs : List (String × V)) (k : String) (v : V)
    (hall : ∀ p ∈ kwargs, snakeOK p.1 = true)
    (hnd : (kwargs.map Prod.fst).Nodup)
    (hmem : (k, v) ∈ kwargs) :
    (Model.init obj kwargs).getattrMagic k = .ok (.ov v) ∧
      (Model.init obj kwargs).getattrMagic (snake_to_camel k) =
        .ok (.ov v) := by
  have hattrs : (Model.init obj kwargs)._attrs =
      kwargs.map (fun p => (snake_to_camel p.1, p.2)) := rfl
  have hmem' : (snake_to_camel k, v) ∈
      kwargs.map (fun p => (snake_to_camel p.1, p.2)) :=
    List.mem_map.mpr ⟨(k, v), hmem, rfl⟩
  have hkeys : (kwargs.map (fun p => (snake_to_camel p.1, p.2))).map Prod.fst
      = (kwargs.map Prod.fst).map snake_to_camel := by
    rw [List.map_map, List.map_map]
    rfl
  have hndm : ((kwargs.map (fun p => (snake_to_camel p.1, p.2))).map
      Prod.fst).Nodup := by
    rw [hkeys]
    refine List.Nodup.map_on ?_ hnd
    intro x hx y hy hxy
    obtain ⟨px, hpx, hpx1⟩ := List.mem_map.mp hx
    obtain ⟨py, hpy, hpy1⟩ := List.mem_map.mp hy
    exact snake_to_camel_injOn (hpx1 ▸ hall px hpx) (hpy1 ▸ hall py hpy) hxy
  have hpd : pydict_get (Model.init obj kwargs)._attrs (snake_to_camel k)
      = some v := by
    rw [hattrs]
    exact pydict_get_of_nodup hndm hmem'
  constructor
  · rw [getattrMagic_resolve, normName_eq_snake_to_camel, hpd]
  · rw [getattrMagic_resolve, normName_camel, hpd]

/-- C1 witness: a Model built with the snake_case override
`first_name="John"` answers both `first_name` and `firstName` with
`"John"`. -/
theorem override_lookup_both_spellings_witness :
    (Model.init (V := String) none [("first_name", "John")]).getattrMagic
        "first_name" = .ok (.ov "John") ∧
      (Model.init (V := String) none
          [("first_name", "John")]).getattrMagic "firstName" =
        .ok (.ov "John") := by
  have h := override_lookup_both_spellings (V := String) none
    [("first_name", "John")] "first_name" "John"
    (by decide) (by decide) (by simp)
  have hcamel : snake_to_camel "first_name" = "firstName" := by rfl
  exact ⟨h.1, hcamel ▸ h.2⟩

/-- C2 witness: a Model with override `name="over"` and a wrapped element
that also has a `name` child resolves `name` to the override value. -/
theorem override_beats_wrapped_child_witness :
    (Model.getattrMagic
        (⟨some (Elem.node "customer" [Elem.node "name" []]),
          [("name", "over")]⟩ : Model String) "name") = .ok (.ov "over") :=
  override_beats_wrapped_child
    (⟨some (Elem.node "customer" [Elem.node "name" []]),
      [("name", "over")]⟩ : Model String)
    "name" "over" (Elem.node "customer" [Elem.node "name" []])
    (Elem.node "name" []) rfl rfl rfl

/-- C3 (code bug): the source intends a failed lookup to raise
`AttributeError("Model has no attribute '%s' (tried %r)")` with the
requested name in snake_case and the `dir` list of alternatives — the
inner `try: return self._obj[attr] except KeyError: pass` and the
alternatives list (which includes the wrapped element's children) show
that raise was meant to be reachable with a wrapped element present.
But lxml's missing-child error from `self._obj[attr]` is an
AttributeError, which `except KeyError` cannot catch, so with a wrapped
element the program propagates lxml's bare error — camelCase name, no
alternatives list — and the facade's diagnostic raise fires only when
`self._obj is None`.  At the failing input, a Model wrapping a `customer`
element with a `companyName` child and carrying override key `fooBar`,
asked for the absent `vat_number`, yields `AttributeError("no such child:
vatNumber")`; for contrast, the same request on an element-less Model
yields the documented diagnostic error with the snake_case name and the
non-empty alternatives list. -/
theorem notfound_lxml_error_escapes_facade :
    (Model.getattrMagic
        (⟨some (Elem.node "customer" [Elem.node "companyName" []]),
          [("fooBar", "x")]⟩ : Model String) "vat_number") =
      .error (.attrError "vatNumber" []) ∧
      (Model.getattrMagic (⟨none, [("fooBar", "x")]⟩ : Model String)
          "vat_number") =
        .error (.attrError "vat_number" ["foo_bar"]) := by
  constructor
  · rfl
  · rfl

/-! ### The Response unwrapper: envelope construction (C4) -/

theorem exbind_ok {α β : Type} (a : α) (f : α → Except PyErr β) :
    ((Except.ok a : Except PyErr α) >>= f) = f a := rfl

theorem exbind_error {α β : Type} (e : PyErr) (f : α → Except PyErr β) :
    ((Except.error e : Except PyErr α) >>= f) = .error e := rfl

theorem expure {α : Type} (a : α) :
    (pure a : Except PyErr α) = .ok a := rfl

theorem attrE_some {e : Elem} {k : String} {c : Elem} (h : e.find k = some c) :
    attrE e k = .ok c := by
  unfold attrE
  rw [h]

theorem attrE_none {e : Elem} {k : String} (h : e.find k = none) :
    attrE e k = .error (.attrError k []) := by
  unfold attrE
  rw [h]

/-- C4: `Response` construction succeeds exactly when the tree has the
`reply.code`, `reply.desc` and `reply.data` envelope fields (a missing one
propagates as an error), and when construction succeeds with the optional
array section absent, the array attribute is the empty sequence. -/
theorem response_init_envelope (tree : Elem) :
    ((Response.init tree).isOk = envelopeOK tree) ∧
      (∀ rep, tree.find "reply" = some rep → rep.find "array" = none →
        ∀ r, Response.init tree = .ok r → r.array = ArrayField.emptyList) := by
  constructor
  · unfold envelopeOK
    cases h1 : tree.find "reply" with
    | none =>
      simp [Response.init, attrE_none h1, exbind_error, Except.isOk,
        Except.toBool]
    | some rep =>
      cases h2 : rep.find "code" with
      | none =>
        simp [Response.init, attrE_some h1, attrE_none h2, h2, exbind_ok,
          exbind_error, Except.isOk, Except.toBool]
      | some code =>
        cases h3 : rep.find "desc" with
        | none =>
          simp [Response.init, attrE_some h1, attrE_some h2, attrE_none h3,
            h2, h3, exbind_ok, exbind_error, Except.isOk, Except.toBool]
        | some desc =>
          cases h4 : rep.find "data" with
          | none =>
            simp [Response.init, attrE_some h1, attrE_some h2, attrE_some h3,
              attrE_none h4, h2, h3, h4, exbind_ok, exbind_error,
              Except.isOk, Except.toBool]
          | some data =>
            simp [Response.init, attrE_some h1, attrE_some h2, attrE_some h3,
              attrE_some h4, h2, h3, h4, exbind_ok, expure, Except.isOk,
              Except.toBool]
  · intro rep h1 h2 r hr
    simp only [Response.init, attrE_some h1, exbind_ok] at hr
    cases hc : rep.find "code" with
    | none =>
      rw [attrE_none hc, exbind_error] at hr
      exact absurd hr (by simp)
    | some code =>
      rw [attrE_some hc, exbind_ok] at hr
      cases hd : rep.find "desc" with
      | none =>
        rw [attrE_none hd, exbind_error] at hr
        exact absurd hr (by simp)
      | some desc =>
        rw [attrE_some hd, exbind_ok] at hr
        cases hdt : rep.find "data" with
        | none =>
          rw [attrE_none hdt, exbind_error] at hr
          exact absurd hr (by simp)
        | some data =>
          rw [attrE_some hdt, exbind_ok, expure, h2] at hr
          cases hr
          rfl

/-- C4 witness: a tree with `reply.code`, `reply.desc` and `reply.data`
but no array section constructs successfully with an empty array. -/
theorem response_init_envelope_witness :
    (Response.init (Elem.node "root"
        [Elem.node "reply"
          [Elem.node "code" [], Elem.node "desc" [],
            Elem.node "data" []]])).isOk =
      envelopeOK (Elem.node "root"
        [Elem.node "reply"
          [Elem.node "code" [], Elem.node "desc" [], Elem.node "data" []]]) ∧
      (Response.mk
          (Elem.node "root"
            [Elem.node "reply"
              [Elem.node "code" [], Elem.node "desc" [], Elem.node "data" []]])
          (Elem.node "reply"
            [Elem.node "code" [], Elem.node "desc" [], Elem.node "data" []])
          (Elem.node "code" []) (Elem.node "desc" []) (Elem.node "data" [])
          ArrayField.emptyList).array = ArrayField.emptyList := by
  refine ⟨(response_init_envelope _).1, ?_⟩
  exact (response_init_envelope (Elem.node "root"
      [Elem.node "reply"
        [Elem.node "code" [], Elem.node "desc" [],
          Elem.node "data" []]])).2
    (Elem.node "reply"
      [Elem.node "code" [], Elem.node "desc" [], Elem.node "data" []])
    rfl rfl _ rfl

/-! ### `Response.as_models` (C5, C6, C10) -/

theorem itemsWalk_error_isAttr {tree : Elem} {e : PyErr}
    (h : itemsWalk tree = .error e) : e.isAttrError = true := by
  unfold itemsWalk at h
  cases h1 : tree.find "reply" with
  | none =>
    rw [attrE_none h1, exbind_error] at h
    cases h
    rfl
  | some rep =>
    rw [attrE_some h1, exbind_ok] at h
    cases h2 : rep.find "data" with
    | none =>
      rw [attrE_none h2, exbind_error] at h
      cases h
      rfl
    | some data =>
      rw [attrE_some h2, exbind_ok] at h
      cases h3 : data.find "results" with
      | none =>
        rw [attrE_none h3, exbind_error] at h
        cases h
        rfl
      | some res =>
        rw [attrE_some h3, exbind_ok] at h
        cases h4 : res.find "array" with
        | none =>
          rw [attrE_none h4, exbind_error] at h
          cases h
          rfl
        | some arr =>
          rw [attrE_some h4, exbind_ok] at h
          cases h5 : arr.find "item" with
          | none =>
            rw [attrE_none h5, exbind_error] at h
            cases h
            rfl
          | some it =>
            rw [attrE_some h5, exbind_ok, expure] at h
            exact absurd h (by simp)

/-- C5: for a Response whose tree lacks the nested
`reply.data.results.array[0].item` path (the walk raises a not-found
condition), `as_models` returns the empty sequence instead of propagating
the error. -/
theorem as_models_absent_path_empty {V : Type} (tree : Elem) (r : Response)
    (hr : Response.init tree = .ok r) (e : PyErr)
    (hw : itemsWalk r.tree = .error e) :
    Response.as_models (V := V) r = .ok [] ∧ e.isAttrError = true := by
  have hattr := itemsWalk_error_isAttr hw
  constructor
  · unfold Response.as_models as_modelsF as_modelsBody
    rw [hw, exbind_error]
    simp [hattr]
  · exact hattr

/-- C5 witness: a tree whose `data` has no `results` child yields an
empty model list. -/
theorem as_models_absent_path_empty_witness :
    Response.as_models (V := String)
        (Response.mk
          (Elem.node "root"
            [Elem.node "reply"
              [Elem.node "code" [], Elem.node "desc" [], Elem.node "data" []]])
          (Elem.node "reply"
            [Elem.node "code" [], Elem.node "desc" [], Elem.node "data" []])
          (Elem.node "code" []) (Elem.node "desc" []) (Elem.node "data" [])
          ArrayField.emptyList) = .ok [] :=
  (as_models_absent_path_empty
    (Elem.node "root"
      [Elem.node "reply"
        [Elem.node "code" [], Elem.node "desc" [], Elem.node "data" []]])
    (Response.mk
      (Elem.node "root"
        [Elem.node "reply"
          [Elem.node "code" [], Elem.node "desc" [], Elem.node "data" []]])
      (Elem.node "reply"
        [Elem.node "code" [], Elem.node "desc" [], Elem.node "data" []])
      (Elem.node "code" []) (Elem.node "desc" []) (Elem.node "data" [])
      ArrayField.emptyList)
    rfl (.attrError "results" []) rfl).1

theorem foldlM_append_ok {M : Type} (g : Elem → M) (items : List Elem)
    (acc : List M) :
    List.foldlM (m := Except PyErr)
        (fun out it => do
          let m ← (Except.ok (g it) : Except PyErr M)
          pure (out ++ [m])) acc items =
      .ok (acc ++ items.map g) := by
  induction items generalizing acc with
  | nil =>
    simp only [List.foldlM_nil, List.map_nil, List.append_nil]
    rfl
  | cons it rest ih =>
    rw [List.foldlM_cons]
    show List.foldlM _ (acc ++ [g it]) rest = _
    rw [ih (acc ++ [g it])]
    simp

/-- C6: for a Response whose tree contains the nested
`reply.data.results.array[0].item` path, `as_models` returns exactly the
item children of the array element, in document order, each wrapped as a
Model of the requested subtype with no overrides. -/
theorem as_models_ordered_items {V : Type} (tree : Elem) (r : Response)
    (hr : Response.init tree = .ok r) (rep data res arr : Elem)
    (h1 : r.tree.find "reply" = some rep)
    (h2 : rep.find "data" = some data)
    (h3 : data.find "results" = some res)
    (h4 : res.find "array" = some arr) :
    Response.as_models (V := V) r =
      .ok ((arr.children.filter (fun c => c.tag == "item")).map
        (fun e => wrapModel e)) := by
  unfold Response.as_models as_modelsF as_modelsBody itemsWalk
  rw [attrE_some h1, exbind_ok, attrE_some h2, exbind_ok, attrE_some h3,
    exbind_ok, attrE_some h4, exbind_ok]
  cases h5 : arr.find "item" with
  | none =>
    rw [attrE_none h5, exbind_error, exbind_error]
    have hfilter : arr.children.filter (fun c => c.tag == "item") = [] := by
      rw [List.filter_eq_nil_iff]
      intro c hc hbeq
      have := List.find?_eq_none.mp h5 c hc
      exact this hbeq
    rw [hfilter]
    rfl
  | some it =>
    rw [attrE_some h5, exbind_ok, expure, exbind_ok]
    have hfold : (List.foldlM (m := Except PyErr)
        (fun out it => do
          let m ← (fun e => (Except.ok (wrapModel e) :
            Except PyErr (Model V))) it
          pure (out ++ [m])) []
        (arr.children.filter (fun c => c.tag == "item"))) =
      .ok ((arr.children.filter (fun c => c.tag == "item")).map
        (fun e => wrapModel e)) :=
      foldlM_append_ok (fun e => wrapModel e) _ []
    rw [hfold]

/-- C6 witness: a tree with three items under
`reply.data.results.array` yields the three wrapped models in order. -/
theorem as_models_ordered_items_witness :
    Response.as_models (V := String)
        (Response.mk
          (Elem.node "root"
            [Elem.node "reply"
              [Elem.node "code" [], Elem.node "desc" [],
                Elem.node "data"
                  [Elem.node "results"
                    [Elem.node "array"
                      [Elem.node "item" [Elem.node "a" []],
                        Elem.node "item" [Elem.node "b" []],
                        Elem.node "item" [Elem.node "c" []]]]]]])
          (Elem.node "reply"
            [Elem.node "code" [], Elem.node "desc" [],
              Elem.node "data"
                [Elem.node "results"
                  [Elem.node "array"
                    [Elem.node "item" [Elem.node "a" []],
                      Elem.node "item" [Elem.node "b" []],
                      Elem.node "item" [Elem.node "c" []]]]]])
          (Elem.node "code" []) (Elem.node "desc" [])
          (Elem.node "data"
            [Elem.node "results"
              [Elem.node "array"
                [Elem.node "item" [Elem.node "a" []],
                  Elem.node "item" [Elem.node "b" []],
                  Elem.node "item" [Elem.node "c" []]]]])
          ArrayField.emptyList) =
      .ok [wrapModel (Elem.node "item" [Elem.node "a" []]),
        wrapModel (Elem.node "item" [Elem.node "b" []]),
        wrapModel (Elem.node "item" [Elem.node "c" []])] := by
  have h := as_models_ordered_items (V := String)
    (Elem.node "root"
      [Elem.node "reply"
        [Elem.node "code" [], Elem.node "desc" [],
          Elem.node "data"
            [Elem.node "results"
              [Elem.node "array"
                [Elem.node "item" [Elem.node "a" []],
                  Elem.node "item" [Elem.node "b" []],
                  Elem.node "item" [Elem.node "c" []]]]]]])
    (Response.mk
      (Elem.node "root"
        [Elem.node "reply"
          [Elem.node "code" [], Elem.node "desc" [],
            Elem.node "data"
              [Elem.node "results"
                [Elem.node "array"
                  [Elem.node "item" [Elem.node "a" []],
                    Elem.node "item" [Elem.node "b" []],
                    Elem.node "item" [Elem.node "c" []]]]]]])
      (Elem.node "reply"
        [Elem.node "code" [], Elem.node "desc" [],
          Elem.node "data"
            [Elem.node "results"
              [Elem.node "array"
                [Elem.node "item" [Elem.node "a" []],
                  Elem.node "item" [Elem.node "b" []],
                  Elem.node "item" [Elem.node "c" []]]]]])
      (Elem.node "code" []) (Elem.node "desc" [])
      (Elem.node "data"
        [Elem.node "results"
          [Elem.node "array"
            [Elem.node "item" [Elem.node "a" []],
              Elem.node "item" [Elem.node "b" []],
              Elem.node "item" [Elem.node "c" []]]]])
      ArrayField.emptyList)
    rfl
    (Elem.node "reply"
      [Elem.node "code" [], Elem.node "desc" [],
        Elem.node "data"
          [Elem.node "results"
            [Elem.node "array"
              [Elem.node "item" [Elem.node "a" []],
                Elem.node "item" [Elem.node "b" []],
                Elem.node "item" [Elem.node "c" []]]]]])
    (Elem.node "data"
      [Elem.node "results"
        [Elem.node "array"
          [Elem.node "item" [Elem.node "a" []],
            Elem.node "item" [Elem.node "b" []],
            Elem.node "item" [Elem.node "c" []]]]])
    (Elem.node "results"
      [Elem.node "array"
        [Elem.node "item" [Elem.node "a" []],
          Elem.node "item" [Elem.node "b" []],
          Elem.node "item" [Elem.node "c" []]]])
    (Elem.node "array"
      [Elem.node "item" [Elem.node "a" []],
        Elem.node "item" [Elem.node "b" []],
        Elem.node "item" [Elem.node "c" []]])
    rfl rfl rfl rfl
  rw [h]
  rfl

/-- C10: `as_models` never propagates an AttributeError-family condition:
whatever the conversion `f` does, an error escaping `as_models` is never an
AttributeError, and if the body raises an AttributeError at any point —
including after some items were already converted — the whole partial
output is discarded and the empty sequence is returned. -/
theorem as_models_never_propagates_attr {M : Type} (tree : Elem)
    (f : Elem → Except PyErr M) :
    (∀ e, as_modelsF tree f = .error e → e.isAttrError = false) ∧
      (∀ e, as_modelsBody tree f = .error e → e.isAttrError = true →
        as_modelsF tree f = .ok []) := by
  cases hb : as_modelsBody tree f with
  | ok l =>
    have hF : as_modelsF tree f = .ok l := by
      unfold as_modelsF
      rw [hb]
    refine ⟨?_, ?_⟩
    · intro e h
      rw [hF] at h
      exact absurd h (by simp)
    · intro e h _
      exact absurd h (by simp)
  | error err =>
    have hF : as_modelsF tree f =
        if err.isAttrError = true then .ok [] else .error err := by
      unfold as_modelsF
      rw [hb]
    refine ⟨?_, ?_⟩
    · intro e h
      rw [hF] at h
      by_cases hA : err.isAttrError = true
      · rw [if_pos hA] at h
        exact absurd h (by simp)
      · rw [if_neg hA] at h
        injection h with h'
        subst h'
        simpa using hA
    · intro e h htrue
      injection h with h'
      subst h'
      rw [hF, if_pos htrue]

/-- C10 witness: with two items where the conversion succeeds on the first
and raises an AttributeError on the second, `as_models` returns the empty
sequence, discarding the already-converted first item. -/
theorem as_models_never_propagates_attr_witness :
    as_modelsF
        (Elem.node "root"
          [Elem.node "reply"
            [Elem.node "data"
              [Elem.node "results"
                [Elem.node "array"
                  [Elem.node "item" [Elem.node "ok" []],
                    Elem.node "item" []]]]]])
        (fun e => if e.children.isEmpty
          then (.error (.attrError "deep" []) : Except PyErr String)
          else .ok "converted") = .ok [] :=
  (as_models_never_propagates_attr
    (Elem.node "root"
      [Elem.node "reply"
        [Elem.node "data"
          [Elem.node "results"
            [Elem.node "array"
              [Elem.node "item" [Elem.node "ok" []],
                Elem.node "item" []]]]]])
    (fun e => if e.children.isEmpty
      then (.error (.attrError "deep" []) : Except PyErr String)
      else .ok "converted")).2
    (.attrError "deep" []) rfl rfl

/-! ### Sub-model properties (C7) -/

theorem find?_cons_true {p : Elem → Bool} {a : Elem} (l : List Elem)
    (h : p a = true) : List.find? p (a :: l) = some a := by
  simp [List.find?, h]

theorem find?_cons_false {p : Elem → Bool} {a : Elem} (l : List Elem)
    (h : p a = false) : List.find? p (a :: l) = List.find? p l := by
  simp [List.find?, h]

theorem find?_map_replace {key : String} {c' : Elem} (htag : c'.tag = key) :
    ∀ (cs : List Elem) (c : Elem),
      cs.find? (fun x => x.tag == key) = some c →
      (cs.map (fun x => if x.tag == key then c' else x)).find?
          (fun x => x.tag == key) = some c' := by
  intro cs
  induction cs with
  | nil =>
    intro c h
    simp at h
  | cons hd tl ih =>
    intro c h
    by_cases hh : (hd.tag == key) = true
    · simp only [List.map_cons, if_pos hh]
      rw [find?_cons_true _ (by simpa using htag)]
    · have hh' : (hd.tag == key) = false := Bool.eq_false_iff.mpr hh
      simp only [List.map_cons, if_neg hh]
      rw [find?_cons_false _ hh']
      rw [find?_cons_false _ hh'] at h
      exact ih c h

/-- C7: a sub-model property access wraps the current child of the wrapped
element, with no memoization: after the underlying child is externally
replaced, the next access wraps the replacement. -/
theorem submodel_fresh_no_cache {V : Type} (m m' : Model V) (key : String)
    (o c c' : Elem) (hobj : m._obj = some o) (hc : o.find key = some c)
    (htag : c'.tag = key) (hobj' : m'._obj = some (o.replaceChild key c')) :
    submodel_get key m = .ok (wrapModel c) ∧
      submodel_get key m' = .ok (wrapModel c') := by
  constructor
  · unfold submodel_get
    rw [hobj]
    show Except.map (fun c => wrapModel c) (attrE o key) = _
    rw [attrE_some hc]
    rfl
  · unfold submodel_get
    rw [hobj']
    show Except.map (fun c => wrapModel c)
      (attrE (o.replaceChild key c') key) = _
    have hfind : (o.replaceChild key c').find key = some c' := by
      unfold Elem.find at hc ⊢
      unfold Elem.replaceChild
      simp only [Elem.children]
      exact find?_map_replace htag o.children c hc
    rw [attrE_some hfind]
    rfl

/-- C7 witness: replacing the `name` child between two accesses is
reflected by the second access. -/
theorem submodel_fresh_no_cache_witness :
    submodel_get "name"
        (⟨some (Elem.node "customer" [Elem.node "name" [Elem.node "x" []]]),
          []⟩ : Model String) =
      .ok (wrapModel (Elem.node "name" [Elem.node "x" []])) ∧
      submodel_get "name"
          (⟨some ((Elem.node "customer"
              [Elem.node "name" [Elem.node "x" []]]).replaceChild "name"
              (Elem.node "name" [Elem.node "y" []])), []⟩ : Model String) =
        .ok (wrapModel (Elem.node "name" [Elem.node "y" []])) :=
  submodel_fresh_no_cache
    (⟨some (Elem.node "customer" [Elem.node "name" [Elem.node "x" []]]),
      []⟩ : Model String)
    (⟨some ((Elem.node "customer"
        [Elem.node "name" [Elem.node "x" []]]).replaceChild "name"
        (Elem.node "name" [Elem.node "y" []])), []⟩ : Model String)
    "name" (Elem.node "customer" [Elem.node "name" [Elem.node "x" []]])
    (Elem.node "name" [Elem.node "x" []])
    (Elem.node "name" [Elem.node "y" []])
    rfl rfl rfl rfl

/-! ### `Name.__str__` and its typo (C9) -/

/-- C9: `Name.__str__` renders "first prefix last" when a prefix override
is present, but with no prefix it reads `self.firs_name` — a typo for
`first_name` — so a Name carrying only `first_name` and `last_name`
raises an AttributeError for `firs_name` instead of rendering
"John Doe" as the class documentation promises. -/
theorem name_str_renders_with_marker_but_typo_without :
    Name.str (Model.init (V := String) none
        [("first_name", "John"), ("prefix", "van"), ("last_name", "Doe")]) =
      .ok "John van Doe" ∧
      Name.str (Model.init (V := String) none
          [("first_name", "John"), ("last_name", "Doe")]) =
        .error (.attrError "firs_name" ["first_name", "last_name"]) := by
  constructor
  · rfl
  · rfl
